import Mathlib

/-!
Verification of the roundabout-counting pipeline of `server.js`
(Giratoire Challenge).

The counting pipeline is embedded shallowly:

* map features (Overpass elements) become the structure `Element`;
* JavaScript `Map` objects keyed by numbers become functions
  `Nat → Option _` updated pointwise, or association lists when the
  insertion order is observable;
* JavaScript numbers become real numbers `ℝ` (coordinates, distances);
  the special value `Infinity`, used only as the initial accumulator of
  min-folds, becomes `Option ℝ` with `none` standing for `Infinity`;
* the network boundary (`fetch` to the Overpass API) becomes an oracle
  `List Bbox → Option (List Element)`, `none` standing for any failure
  (non-success status, timeout, malformed body); `countRoundabouts`
  is then a total function of the polyline and the oracle.
-/

namespace GC

/-- A polyline point, `(longitude, latitude)` in degrees (GeoJSON order),
as in `geometry.coordinates` of `server.js`. -/
abbrev Point : Type := ℝ × ℝ

/-- A padded bounding box as built by `computeSegmentBboxes`.  The fields
mirror `{s, n, w, e}`; `none` stands for the JavaScript `Infinity` /
`-Infinity` fold seeds (reachable only for an empty chunk, which the
loop guard rules out). -/
structure Bbox where
  s : Option ℝ
  n : Option ℝ
  w : Option ℝ
  e : Option ℝ

/-- An Overpass element.  A *node* carries `lat`/`lon`; a *way* carries
`nodes` and possibly a `junction` tag (`tags?.junction`). -/
structure Element where
  type : String
  id : Nat
  nodes : List Nat
  junction : Option String
  lat : Option ℝ
  lon : Option ℝ

/- ---------------------------------------------------------------
   Region Segmenter: `computeSegmentBboxes` (server.js 107-130)
   --------------------------------------------------------------- -/

/-- The chunk sequence produced by the loop
`for (let i = 0; i < coords.length; i += segmentSize)` with
`coords.slice(i, i + segmentSize + 1)`. -/
def chunksFrom (coords : List Point) (s : Nat) (hs : 0 < s) (i : Nat) :
    List (List Point) :=
  if i < coords.length then
    ((coords.drop i).take (s + 1)) :: chunksFrom coords s hs (i + s)
  else []
termination_by coords.length - i
decreasing_by omega

/-- `segmentSize = Math.max(1, Math.ceil(coords.length / maxSegments))`;
the ceiling division is `(len + M - 1) / M` on naturals. -/
def segmentSize (len M : Nat) : Nat := max 1 ((len + M - 1) / M)

/-- The chunks underlying `computeSegmentBboxes coords M`. -/
def segmentChunks (coords : List Point) (M : Nat) : List (List Point) :=
  chunksFrom coords (segmentSize coords.length M) (le_max_left 1 _) 0

/-- One step of the extrema folds; `none` is the `Infinity` seed. -/
def foldMin (m : Option ℝ) (x : ℝ) : Option ℝ :=
  some (match m with | none => x | some v => min v x)

def foldMax (m : Option ℝ) (x : ℝ) : Option ℝ :=
  some (match m with | none => x | some v => max v x)

/-- The bbox of one chunk: coordinate extrema, padded by the fixed
`buffer = 0.003` (server.js 111, 115-127). -/
noncomputable def bboxOfChunk (chunk : List Point) : Bbox :=
  let buffer : ℝ := 0.003
  let minLat := chunk.foldl (fun m p => foldMin m p.2) none
  let maxLat := chunk.foldl (fun m p => foldMax m p.2) none
  let minLon := chunk.foldl (fun m p => foldMin m p.1) none
  let maxLon := chunk.foldl (fun m p => foldMax m p.1) none
  { s := minLat.map (fun v => v - buffer)
    n := maxLat.map (fun v => v + buffer)
    w := minLon.map (fun v => v - buffer)
    e := maxLon.map (fun v => v + buffer) }

/-- `computeSegmentBboxes` (server.js 107-130). -/
noncomputable def computeSegmentBboxes (coords : List Point) (M : Nat) :
    List Bbox :=
  (segmentChunks coords M).map bboxOfChunk

/-- Concatenation of chunks with the one-point overlaps removed: the
first chunk whole, every later chunk without its first point. -/
def dropOverlapConcat : List (List Point) → List Point
  | [] => []
  | c :: rest => c ++ rest.flatMap (List.drop 1)

/- ---------------------------------------------------------------
   Feature Deduplicator (server.js 316-323)
   --------------------------------------------------------------- -/

/-- The identity key `` `${el.type}-${el.id}` `` of an element, as a
pair (the id part of the key string is a plain numeral, so the string
key and the pair are in bijection). -/
def elemKey (e : Element) : String × Nat := (e.type, e.id)

/-- One step of the dedup loop (server.js 317-321):
`if (el.id && !uniqueElements.has(key)) uniqueElements.set(key, el)`.
The association list mirrors the `Map` in insertion order; `el.id` is
truthy iff the id is nonzero; `has` is membership among the keys. -/
def dedupUpd (acc : List ((String × Nat) × Element)) (el : Element) :
    List ((String × Nat) × Element) :=
  if el.id ≠ 0 ∧ (∀ p ∈ acc, p.1 ≠ elemKey el)
  then acc ++ [(elemKey el, el)]
  else acc

/-- The dedup step of `countRoundabouts` (server.js 316-323): build the
`Map`, then take `[...uniqueElements.values()]`. -/
def dedupElements (els : List Element) : List Element :=
  (els.foldl dedupUpd []).map Prod.snd

/-- Follows the spec's words (§4.4, claim C7): «Builds a mapping keyed
by (kind, id); first occurrence wins, later duplicates are discarded» —
with no condition on the id value.  Kept for comparison with
`dedupUpd`. -/
def specDedupUpd (acc : List ((String × Nat) × Element)) (el : Element) :
    List ((String × Nat) × Element) :=
  if (∀ p ∈ acc, p.1 ≠ elemKey el)
  then acc ++ [(elemKey el, el)]
  else acc

/-- The feature deduplication described by the spec's words: first
occurrence of each (kind, id) wins, every element participating. -/
def specDedupFirstOcc (els : List Element) : List Element :=
  (els.foldl specDedupUpd []).map Prod.snd

/- ---------------------------------------------------------------
   Junction Grouper: `deduplicateRoundabouts` (server.js 132-174)
   --------------------------------------------------------------- -/

/-- `el.type === 'way' && (el.tags?.junction === 'roundabout' ||
el.tags?.junction === 'circular')`. -/
def isRoundaboutWay (el : Element) : Bool :=
  el.type == "way" &&
    (el.junction == some "roundabout" || el.junction == some "circular")

/-- Pointwise update of a `Map` modelled as a function. -/
def mapSet (m : Nat → Option Nat) (k v : Nat) : Nat → Option Nat :=
  fun k' => if k' = k then some v else m k'

/-- The mutable state of the grouping loop. -/
structure DedupState where
  nodeToGroup : Nat → Option Nat
  wayToGroup : Nat → Option Nat
  nextGid : Nat

/-- Processing of one way (server.js 142-162).  The `for ... break`
search for the first node already mapped to a group is
`List.findSome?`. -/
def dedupStep (st : DedupState) (way : Element) : DedupState :=
  match way.nodes.findSome? st.nodeToGroup with
  | some g =>
      { st with
        wayToGroup := mapSet st.wayToGroup way.id g
        nodeToGroup := way.nodes.foldl (fun m nid => mapSet m nid g) st.nodeToGroup }
  | none =>
      let g := st.nextGid
      { nodeToGroup := way.nodes.foldl (fun m nid => mapSet m nid g) st.nodeToGroup
        wayToGroup := mapSet st.wayToGroup way.id g
        nextGid := g + 1 }

/-- The grouping pass of `deduplicateRoundabouts` over the filtered
roundabout ways. -/
def dedupState (els : List Element) : DedupState :=
  (els.filter isRoundaboutWay).foldl dedupStep
    ⟨fun _ => none, fun _ => none, 0⟩

/-- `wayToGroup.get(way.id)` after the grouping pass. -/
def wayGroupOf (els : List Element) (wid : Nat) : Option Nat :=
  (dedupState els).wayToGroup wid

/-- Group ids in order of first appearance (the iteration order of the
`groups` map built on server.js 165-172). -/
def groupIds (els : List Element) : List Nat :=
  ((els.filter isRoundaboutWay).filterMap (fun w => wayGroupOf els w.id)).foldl
    (fun acc g => if g ∈ acc then acc else acc ++ [g]) []

/-- The member lists of the groups map, in iteration order; each group
holds its ways in input order, as produced by `groups.get(gid).push(way)`. -/
def groupsOf (els : List Element) : List (List Element) :=
  (groupIds els).map
    (fun g => (els.filter isRoundaboutWay).filter
      (fun w => wayGroupOf els w.id == some g))

/-- Two ways share at least one node id. -/
def sharesNode (w1 w2 : Element) : Bool :=
  w1.nodes.any (fun n => w2.nodes.contains n)

/- ---------------------------------------------------------------
   Geometry utilities (server.js 176-195)
   --------------------------------------------------------------- -/

noncomputable section

/-- `d * Math.PI / 180`. -/
def toRad (d : ℝ) : ℝ := d * Real.pi / 180

/-- `Math.atan2(y, x)`. -/
def atan2 (y x : ℝ) : ℝ :=
  if 0 < x then Real.arctan (y / x)
  else if x < 0 then
    (if 0 ≤ y then Real.arctan (y / x) + Real.pi
     else Real.arctan (y / x) - Real.pi)
  else
    (if 0 < y then Real.pi / 2
     else if y < 0 then -(Real.pi / 2) else 0)

/-- `haversineMeters` (server.js 177-185). -/
def haversineMeters (lat1 lon1 lat2 lon2 : ℝ) : ℝ :=
  let R : ℝ := 6371000
  let dLat := toRad (lat2 - lat1)
  let dLon := toRad (lon2 - lon1)
  let a := Real.sin (dLat / 2) ^ 2 +
    Real.cos (toRad lat1) * Real.cos (toRad lat2) * Real.sin (dLon / 2) ^ 2
  R * 2 * atan2 (Real.sqrt a) (Real.sqrt (1 - a))

/-- `Math.hypot`. -/
def hypot (x y : ℝ) : ℝ := Real.sqrt (x * x + y * y)

/-- `distToSegment` (server.js 188-195). -/
def distToSegment (px py ax ay bx bY : ℝ) : ℝ :=
  let dx := bx - ax
  let dy := bY - ay
  let lenSq := dx * dx + dy * dy
  if lenSq = 0 then hypot (px - ax) (py - ay)
  else
    let t := ((px - ax) * dx + (py - ay) * dy) / lenSq
    let t' := max 0 (min 1 t)
    hypot (px - (ax + t' * dx)) (py - (ay + t' * dy))

/- ---------------------------------------------------------------
   Proximity Filter: `isNearRoute` (server.js 198-242)
   --------------------------------------------------------------- -/

/-- `routeCoords[i]` (in-bounds at every use site). -/
def pointAt (route : List Point) (i : Nat) : Point := route.getD i (0, 0)

/-- The rough degree-distance rejection of the coarse pass
(server.js 209-211): `continue` iff the centroid is farther than 0.05°
from the sampled segment's midpoint in *both* axes. -/
def coarseSkip (clat clon : ℝ) (route : List Point) (step i : Nat) : Bool :=
  let j := min (i + step) (route.length - 1)
  let p1 := pointAt route i
  let p2 := pointAt route j
  let midLat := (p1.2 + p2.2) / 2
  let midLon := (p1.1 + p2.1) / 2
  decide (0.05 < |clat - midLat|) && decide (0.05 < |clon - midLon|)

/-- The great-circle distance computed by one coarse iteration
(server.js 213-216): centroid to the sampled segment's midpoint. -/
def coarseMidDist (clat clon : ℝ) (route : List Point) (step i : Nat) : ℝ :=
  let j := min (i + step) (route.length - 1)
  let p1 := pointAt route i
  let p2 := pointAt route j
  haversineMeters clat clon
    (p1.2 + (p2.2 - p1.2) * 0.5) (p1.1 + (p2.1 - p1.1) * 0.5)

/-- `if (dist < minDist) minDist = dist`, with `none` as `Infinity`. -/
def minFold (m : Option ℝ) (d : ℝ) : Option ℝ :=
  some (match m with | none => d | some v => if d < v then d else v)

/-- `minDist < maxDistMeters`, with `none` as `Infinity` (never `<`). -/
def minLt (m : Option ℝ) (x : ℝ) : Bool :=
  match m with | none => false | some v => decide (v < x)

/-- The coarse sampling loop (server.js 203-219):
`for (let i = 0; i < routeCoords.length - 1; i += step)`. -/
def coarseLoop (clat clon : ℝ) (route : List Point) (maxDist : ℝ)
    (step : Nat) (hs : 0 < step) (i : Nat) (minDist : Option ℝ) : Bool :=
  if i < route.length - 1 then
    if coarseSkip clat clon route step i then
      coarseLoop clat clon route maxDist step hs (i + step) minDist
    else
      let m := minFold minDist (coarseMidDist clat clon route step i)
      if minLt m maxDist then true
      else coarseLoop clat clon route maxDist step hs (i + step) m
  else false
termination_by route.length - 1 - i
decreasing_by all_goals omega

/-- The axis-aligned envelope rejection of the fine pass
(server.js 227-232), padded by 0.001°. -/
def fineSkip (clat clon : ℝ) (route : List Point) (i : Nat) : Bool :=
  let p1 := pointAt route i
  let p2 := pointAt route (i + 1)
  let segMinLat := min p1.2 p2.2 - 0.001
  let segMaxLat := max p1.2 p2.2 + 0.001
  let segMinLon := min p1.1 p2.1 - 0.001
  let segMaxLon := max p1.1 p2.1 + 0.001
  decide (clat < segMinLat) || decide (segMaxLat < clat) ||
    decide (clon < segMinLon) || decide (segMaxLon < clon)

/-- The approximate metric distance of one fine iteration
(server.js 235-237): planar degree distance to the segment, scaled by
`111320 * cos(centroidLat * π / 180)`. -/
def fineApprox (clat clon : ℝ) (route : List Point) (i : Nat) : ℝ :=
  let p1 := pointAt route i
  let p2 := pointAt route (i + 1)
  distToSegment clon clat p1.1 p1.2 p2.1 p2.2 * 111320 *
    Real.cos (clat * Real.pi / 180)

/-- The fine per-segment loop (server.js 222-239). -/
def fineLoop (clat clon : ℝ) (route : List Point) (maxDist : ℝ)
    (i : Nat) : Bool :=
  if i < route.length - 1 then
    if fineSkip clat clon route i then
      fineLoop clat clon route maxDist (i + 1)
    else if decide (fineApprox clat clon route i < maxDist) then true
    else fineLoop clat clon route maxDist (i + 1)
  else false
termination_by route.length - 1 - i
decreasing_by all_goals omega

/-- `isNearRoute` (server.js 198-242): the coarse sampling pass, then —
only if it did not accept — the exhaustive fine pass.
`step = Math.max(1, Math.floor(routeCoords.length / 500))`. -/
def isNearRoute (clat clon : ℝ) (route : List Point) (maxDist : ℝ) : Bool :=
  coarseLoop clat clon route maxDist (max 1 (route.length / 500))
    (le_max_left 1 _) 0 none ||
  fineLoop clat clon route maxDist 0

end

/- ---------------------------------------------------------------
   Spatial Query Client: HTTP response handling of
   `queryOverpassBboxes` (server.js 269-276)
   --------------------------------------------------------------- -/

/-- The observable part of a `fetch` response. -/
structure HttpResponse where
  ok : Bool
  status : Nat
  body : String

/-- The message of the error thrown on a non-success status
(server.js 272): `` `Overpass API HTTP ${res.status}` ``. -/
def overpassHttpErrorMsg (status : Nat) : String :=
  String.append "Overpass API HTTP " (toString status)

/-- The diagnostic line written by `console.error` on a non-success
status (server.js 271), carrying the status and the response body
truncated to 200 characters. -/
def overpassErrorLog (res : HttpResponse) : String :=
  String.append "[Overpass] HTTP error: "
    (String.append (toString res.status)
      (String.append " " (res.body.take 200)))

/-- The response handling of `queryOverpassBboxes`: non-success status
fails with the thrown error's message; on success the body is parsed
(`JSON.parse`, abstracted by `parse`; a malformed body fails). -/
def overpassResponse (res : HttpResponse)
    (parse : String → Option (List Element)) : Except String (List Element) :=
  if res.ok then
    match parse res.body with
    | some els => Except.ok els
    | none => Except.error "JSON parse error"
  else Except.error (overpassHttpErrorMsg res.status)

/-- `needle` occurs as a contiguous substring of `hay`. -/
def carries (needle hay : String) : Prop :=
  needle.toList <:+: hay.toList

instance (needle hay : String) : Decidable (carries needle hay) := by
  unfold carries; infer_instance

/- ---------------------------------------------------------------
   Batch Orchestrator (server.js 290-313)
   --------------------------------------------------------------- -/

/-- The batch loop of `countRoundabouts`
(`for (let i = 0; i < bboxes.length; i += BATCH_SIZE)` with
`BATCH_SIZE = 12`): query each batch of 12 boxes through the oracle
`q`; on failure (`none`), retry each box of the batch individually and
silently drop boxes whose retry also fails.  Delays and logging have no
observable effect on the result and are omitted. -/
def gatherElements (q : List Bbox → Option (List Element)) :
    List Bbox → List Element
  | [] => []
  | b :: rest =>
    (match q (b :: rest.take 11) with
     | some els => els
     | none =>
        (b :: rest.take 11).flatMap
          (fun sb => match q [sb] with
            | some els => els
            | none => []))
    ++ gatherElements q (rest.drop 11)
termination_by l => l.length
decreasing_by simp; omega

/- ---------------------------------------------------------------
   Proximity stage centroid and the Roundabout Counter
   (server.js 282-363)
   --------------------------------------------------------------- -/

/-- The node-position lookup built from the deduplicated elements
(server.js 326-331): every node element with both coordinates defined
contributes, later entries overwriting earlier ones. -/
def nodePositions (els : List Element) : Nat → Option (ℝ × ℝ) :=
  els.foldl
    (fun m el =>
      if el.type == "node" ∧ el.lat.isSome ∧ el.lon.isSome then
        fun k => if k = el.id then
          some (el.lat.getD 0, el.lon.getD 0) else m k
      else m)
    (fun _ => none)

/-- The per-group centroid computation (server.js 341-354): sum `lat`,
`lon` and a counter over *every occurrence* of a node id in the group's
ways' node lists that resolves in the position table; `none` when the
counter stays 0 (the `if (count === 0) continue` branch). -/
noncomputable def groupCentroid (npos : Nat → Option (ℝ × ℝ))
    (ways : List Element) : Option (ℝ × ℝ) :=
  let acc := ways.foldl
    (fun (a : ℝ × ℝ × Nat) w =>
      w.nodes.foldl
        (fun (a : ℝ × ℝ × Nat) nid =>
          match npos nid with
          | some p => (a.1 + p.1, a.2.1 + p.2, a.2.2 + 1)
          | none => a)
        a)
    (0, 0, 0)
  if acc.2.2 = 0 then none
  else some (acc.1 / (acc.2.2 : ℝ), acc.2.1 / (acc.2.2 : ℝ))

/-- Follows the spec's words (claim C5): the arithmetic mean over the
positions of the group's *distinct* node ids that resolve in the table
(one contribution per distinct node id).  Kept for comparison with
`groupCentroid`. -/
noncomputable def specCentroidDistinct (npos : Nat → Option (ℝ × ℝ))
    (ways : List Element) : Option (ℝ × ℝ) :=
  let ids := (ways.flatMap Element.nodes).foldl
    (fun acc nid => if nid ∈ acc then acc else acc ++ [nid]) []
  let ps := ids.filterMap npos
  if ps.length = 0 then none
  else some ((ps.map Prod.fst).sum / (ps.length : ℝ),
             (ps.map Prod.snd).sum / (ps.length : ℝ))

/-- The sequence of resolvable positions encountered by the centroid
loops: one entry per occurrence of a node id in the group's ways' node
lists that is present in the position table. -/
def resolvedPositions (npos : Nat → Option (ℝ × ℝ))
    (ways : List Element) : List (ℝ × ℝ) :=
  (ways.flatMap Element.nodes).filterMap npos

/-- The proximity-filter fold of `countRoundabouts` (server.js 338-359):
for each group, compute the centroid; skip the group when it is
undefined; otherwise count it iff its centroid is near the route. -/
noncomputable def countGroups (coords : List Point)
    (npos : Nat → Option (ℝ × ℝ)) (groups : List (List Element)) : Nat :=
  groups.foldl
    (fun n ways =>
      match groupCentroid npos ways with
      | none => n
      | some c => if isNearRoute c.1 c.2 coords 50 then n + 1 else n)
    0

/-- `countRoundabouts` (server.js 282-363), with the network boundary
abstracted by the oracle `q`: segment the route, gather elements over
all batches with per-box retry, deduplicate by identity, build node
positions, group roundabout ways, and count groups whose centroid lies
near the route. -/
noncomputable def countRoundabouts (geometry : List Point)
    (q : List Bbox → Option (List Element)) : Nat :=
  let bboxes := computeSegmentBboxes geometry 12
  let allElements := gatherElements q bboxes
  let elements := dedupElements allElements
  let npos := nodePositions elements
  let groups := groupsOf elements
  countGroups geometry npos groups

/-- The oracle of the C4 scenario in which every combined batch query
succeeds directly, each box contributing `contrib`. -/
def okOracle (contrib : Bbox → List Element) :
    List Bbox → Option (List Element) :=
  fun bs => some (bs.flatMap contrib)

/-- The oracle of the C4 scenario in which a combined batch query fails
but every individual per-box retry succeeds with that box's
contribution. -/
def retryOracle (contrib : Bbox → List Element) :
    List Bbox → Option (List Element) :=
  fun bs => match bs with
    | [b] => some (contrib b)
    | _ => none

/- ===============================================================
   Concrete instances used by counterexamples and witnesses
   =============================================================== -/

/-- A roundabout way on node 1. -/
def wA : Element := ⟨"way", 1, [1], some "roundabout", none, none⟩

/-- A roundabout way on node 2, sharing no node with `wA`. -/
def wB : Element := ⟨"way", 2, [2], some "roundabout", none, none⟩

/-- A roundabout way bridging nodes 1 and 2: it shares a node with both
`wA` and `wB`. -/
def wC : Element := ⟨"way", 3, [1, 2], some "roundabout", none, none⟩

/-- A degenerate node element with the falsy id 0. -/
def el0 : Element := ⟨"node", 0, [], none, none, none⟩

/-- A non-success Overpass response. -/
def res0 : HttpResponse := ⟨false, 504, "Gateway Timeout"⟩

/-- A closed roundabout way whose node list repeats node 1 (as OSM
closed ways do: first node = last node). -/
def wD : Element := ⟨"way", 9, [1, 2, 1], some "roundabout", none, none⟩

/-- A position table resolving node 1 to (0, 0) and node 2 to (3, 3). -/
noncomputable def nposEx : Nat → Option (ℝ × ℝ) :=
  fun k => if k = 1 then some (0, 0) else if k = 2 then some (3, 3) else none

/-- An empty position table. -/
def nposNone : Nat → Option (ℝ × ℝ) := fun _ => none

/-- The latitude offset, in degrees, whose meridian arc length is
exactly 1000 m for the code's Earth radius 6371000 m. -/
noncomputable def latOffset1000 : ℝ := 180 / (6371 * Real.pi)

/-- An arbitrary parser (irrelevant on the error path). -/
def parse0 : String → Option (List Element) := fun _ => none

/- ===============================================================
   Lemmas
   =============================================================== -/

/-- When every batch query and every per-box retry fails, the
accumulated element list is empty. -/
theorem gatherElements_none (q : List Bbox → Option (List Element))
    (h : ∀ bs, q bs = none) (l : List Bbox) : gatherElements q l = [] := by
  have key : ∀ (n : Nat) (l : List Bbox), l.length ≤ n →
      gatherElements q l = [] := by
    intro n
    induction n with
    | zero =>
      intro l hl
      have hnil : l = [] := List.length_eq_zero.mp (Nat.le_zero.mp hl)
      subst hnil
      simp [gatherElements]
    | succ n ih =>
      intro l hl
      cases l with
      | nil => simp [gatherElements]
      | cons b rest =>
        rw [gatherElements, h]
        have h2 : ∀ sb : Bbox,
            (match q [sb] with
             | some els => els
             | none => ([] : List Element)) = [] := by
          intro sb; rw [h]
        simp only [h2, List.flatMap_def, List.map_const']
        simp only [List.length_cons, Nat.add_le_add_iff_right] at hl
        have hlen : (rest.drop 11).length ≤ n :=
          le_trans (by simp) hl
        simp [ih _ hlen]
  exact key l.length l le_rfl

/-- The retry fallback reproduces exactly the batch result when the
combined query would have returned each box's contribution. -/
theorem gatherElements_retry_eq_ok (contrib : Bbox → List Element)
    (l : List Bbox) :
    gatherElements (retryOracle contrib) l =
      gatherElements (okOracle contrib) l := by
  have key : ∀ (n : Nat) (l : List Bbox), l.length ≤ n →
      gatherElements (retryOracle contrib) l =
        gatherElements (okOracle contrib) l := by
    intro n
    induction n with
    | zero =>
      intro l hl
      have hnil : l = [] := List.length_eq_zero.mp (Nat.le_zero.mp hl)
      subst hnil
      simp [gatherElements]
    | succ n ih =>
      intro l hl
      cases l with
      | nil => simp [gatherElements]
      | cons b rest =>
        simp only [gatherElements]
        have hdrop : (rest.drop 11).length ≤ n := by
          simp only [List.length_cons, Nat.add_le_add_iff_right] at hl
          exact le_trans (by simp) hl
        rw [ih _ hdrop]
        congr 1
        cases h11 : rest.take 11 with
        | nil => simp [retryOracle, okOracle]
        | cons x xs =>
          have hretry : retryOracle contrib (b :: x :: xs) = none := rfl
          have hbox : ∀ sb : Bbox,
              (match retryOracle contrib [sb] with
               | some els => els
               | none => ([] : List Element)) = contrib sb := by
            intro sb; rfl
          simp [hretry, hbox, okOracle]
  exact key l.length l le_rfl

/-- Removing the leading overlap point of every chunk after the first
yields exactly the tail of the polyline from position `i + 1` on. -/
theorem chunksFrom_flatMap_drop (coords : List Point) (s : Nat) (hs : 0 < s) :
    ∀ (n i : Nat), coords.length - i ≤ n →
      (chunksFrom coords s hs i).flatMap (List.drop 1) =
        coords.drop (i + 1) := by
  intro n
  induction n with
  | zero =>
    intro i hi
    rw [chunksFrom, if_neg (by omega)]
    simp [List.drop_eq_nil_of_le (by omega : coords.length ≤ i + 1)]
  | succ n ih =>
    intro i hi
    by_cases h : i < coords.length
    · rw [chunksFrom, if_pos h]
      rw [List.flatMap_cons]
      rw [ih (i + s) (by omega)]
      rw [List.drop_take, List.drop_drop]
      have harr : i + s + 1 = s + (i + 1) := by omega
      rw [harr, ← List.take_append_drop s (coords.drop (i + 1)), List.drop_drop]
      congr 1
      · simp
      · congr 1
        omega
    · rw [chunksFrom, if_neg h]
      simp [List.drop_eq_nil_of_le (by omega : coords.length ≤ i + 1)]

/-- Concatenating the chunks with the overlap points removed
reconstructs the original point sequence. -/
theorem chunksFrom_reconstruct (coords : List Point) (s : Nat) (hs : 0 < s) :
    dropOverlapConcat (chunksFrom coords s hs 0) = coords := by
  by_cases h : coords = []
  · subst h
    rw [chunksFrom]
    simp [dropOverlapConcat]
  · have hlen : 0 < coords.length := List.length_pos.mpr h
    rw [chunksFrom, if_pos hlen]
    simp only [dropOverlapConcat, Nat.zero_add, List.drop_zero]
    rw [chunksFrom_flatMap_drop coords s hs coords.length s (by omega)]
    exact List.take_append_drop (s + 1) coords

/-- At most `n` chunks are produced when at most `n * s` points
remain. -/
theorem chunksFrom_length_le (coords : List Point) (s : Nat) (hs : 0 < s) :
    ∀ (n i : Nat), coords.length - i ≤ n * s →
      (chunksFrom coords s hs i).length ≤ n := by
  intro n
  induction n with
  | zero =>
    intro i hi
    rw [chunksFrom, if_neg (by omega)]
    simp
  | succ n ih =>
    intro i hi
    by_cases h : i < coords.length
    · rw [chunksFrom, if_pos h]
      simp only [List.length_cons, Nat.add_le_add_iff_right]
      exact ih (i + s) (by
        have : (n + 1) * s = n * s + s := by ring
        omega)
    · rw [chunksFrom, if_neg h]
      simp

/-- Characterization of the `k`-th chunk: the slice of `s + 1` points
starting at `i + k * s`, provided that start index is in range. -/
theorem chunksFrom_getElem? (coords : List Point) (s : Nat) (hs : 0 < s) :
    ∀ (k i : Nat), (chunksFrom coords s hs i)[k]? =
      if i + k * s < coords.length
      then some ((coords.drop (i + k * s)).take (s + 1))
      else none := by
  intro k
  induction k with
  | zero =>
    intro i
    by_cases h : i < coords.length
    · rw [chunksFrom, if_pos h]
      simp [h]
    · rw [chunksFrom, if_neg h]
      simp [h]
  | succ k ih =>
    intro i
    by_cases h : i < coords.length
    · rw [chunksFrom, if_pos h]
      simp only [List.getElem?_cons_succ]
      rw [ih (i + s)]
      have harr : i + s + k * s = i + (k + 1) * s := by ring
      rw [harr]
    · rw [chunksFrom, if_neg h]
      have hge : ¬ (i + (k + 1) * s < coords.length) := by
        have : i ≤ i + (k + 1) * s := by omega
        omega
      simp [hge]

/-- The segmenter produces at most `M` chunks. -/
theorem segmentChunks_length_le (coords : List Point) (M : Nat)
    (hM : 1 ≤ M) : (segmentChunks coords M).length ≤ M := by
  unfold segmentChunks
  apply chunksFrom_length_le
  have hdm := Nat.div_add_mod (coords.length + M - 1) M
  have hr : (coords.length + M - 1) % M < M := Nat.mod_lt _ (by omega)
  have h1 : coords.length ≤ M * ((coords.length + M - 1) / M) := by omega
  have h2 : M * ((coords.length + M - 1) / M) ≤
      M * segmentSize coords.length M :=
    Nat.mul_le_mul_left M (le_max_right 1 _)
  omega

/-- Chunk `k + 1` starts at the last point of chunk `k`. -/
theorem segmentChunks_overlap (coords : List Point) (M : Nat) :
    ∀ k, k + 1 < (segmentChunks coords M).length →
      ((segmentChunks coords M).getD (k + 1) []).head? =
        ((segmentChunks coords M).getD k []).getLast? := by
  intro k hk
  set s := segmentSize coords.length M with hs
  have hspos : 0 < s := le_max_left 1 _
  have hget := chunksFrom_getElem? coords s hspos
  have hcond : 0 + (k + 1) * s < coords.length := by
    by_contra hno
    have hnone : (segmentChunks coords M)[k + 1]? = none := by
      unfold segmentChunks
      rw [hget (k + 1) 0, if_neg hno]
    rw [List.getElem?_eq_none_iff] at hnone
    omega
  have hm : k * s + s < coords.length := by
    have : (k + 1) * s = k * s + s := by ring
    omega
  have hgk : (segmentChunks coords M)[k]? =
      some ((coords.drop (k * s)).take (s + 1)) := by
    unfold segmentChunks
    rw [hget k 0, if_pos (by omega)]
    norm_num
  have hgk1 : (segmentChunks coords M)[k + 1]? =
      some ((coords.drop (k * s + s)).take (s + 1)) := by
    unfold segmentChunks
    rw [hget (k + 1) 0, if_pos (by omega)]
    have h0 : 0 + (k + 1) * s = k * s + s := by ring
    rw [h0]
  rw [List.getD_eq_getElem?_getD, List.getD_eq_getElem?_getD, hgk, hgk1]
  simp only [Option.getD_some]
  have hhead : ((coords.drop (k * s + s)).take (s + 1)).head? =
      coords[k * s + s]? := by
    rw [List.head?_eq_getElem?]
    rw [List.getElem?_take]
    simp [List.getElem?_drop]
  have hlen : ((coords.drop (k * s)).take (s + 1)).length = s + 1 := by
    rw [List.length_take, List.length_drop]
    omega
  have hlast : ((coords.drop (k * s)).take (s + 1)).getLast? =
      coords[k * s + s]? := by
    rw [List.getLast?_eq_getElem?, hlen]
    simp only [Nat.add_sub_cancel]
    rw [List.getElem?_take]
    simp [List.getElem?_drop]
  rw [hhead, hlast]

/-- The guarded dedup fold over any list equals the unguarded
spec fold over the sublist of elements with a truthy id. -/
theorem dedup_foldl_filter (els : List Element) :
    ∀ acc, els.foldl dedupUpd acc =
      (els.filter (fun e => e.id ≠ 0)).foldl specDedupUpd acc := by
  induction els with
  | nil => intro acc; rfl
  | cons el rest ih =>
    intro acc
    by_cases h : el.id = 0
    · have hupd : dedupUpd acc el = acc := by
        simp [dedupUpd, h]
      simp [List.filter_cons, h, hupd, ih]
    · have hiff : (el.id ≠ 0 ∧ ∀ p ∈ acc, p.1 ≠ elemKey el) ↔
          (∀ p ∈ acc, p.1 ≠ elemKey el) := by
        simp [h]
      have hupd : dedupUpd acc el = specDedupUpd acc el := by
        unfold dedupUpd specDedupUpd
        rw [if_congr hiff rfl rfl]
      simp [List.filter_cons, h, List.foldl_cons, hupd, ih]

/-- Invariants of the spec fold: the recorded keys stay distinct and
every entry's key is the key of its element. -/
theorem specDedupUpd_fold_inv (els : List Element) :
    ∀ acc : List ((String × Nat) × Element),
      ((acc.map Prod.fst).Nodup ∧ ∀ p ∈ acc, p.1 = elemKey p.2) →
      (((els.foldl specDedupUpd acc).map Prod.fst).Nodup ∧
        ∀ p ∈ els.foldl specDedupUpd acc, p.1 = elemKey p.2) := by
  induction els with
  | nil => intro acc h; exact h
  | cons el rest ih =>
    intro acc h
    by_cases hnew : ∀ p ∈ acc, p.1 ≠ elemKey el
    · have hupd : specDedupUpd acc el = acc ++ [(elemKey el, el)] := by
        unfold specDedupUpd
        exact if_pos hnew
      simp only [List.foldl_cons, hupd]
      apply ih
      constructor
      · have hnotin : elemKey el ∉ acc.map Prod.fst := by
          intro hk
          obtain ⟨p, hp, hpk⟩ := List.mem_map.mp hk
          exact hnew p hp hpk
        simp only [List.map_append, List.map_cons, List.map_nil]
        rw [List.nodup_append]
        refine ⟨h.1, List.nodup_singleton _, ?_⟩
        intro k hk hk1
        simp only [List.mem_singleton] at hk1
        subst hk1
        exact hnotin hk
      · intro p hp
        rcases List.mem_append.mp hp with hp1 | hp2
        · exact h.2 p hp1
        · simp only [List.mem_singleton] at hp2
          subst hp2
          rfl
    · have hupd : specDedupUpd acc el = acc := by
        simp only [specDedupUpd, if_neg hnew]
      simp only [List.foldl_cons, hupd]
      exact ih acc h

/-- The inner centroid fold over one way's node list adds the sums and
the count of that list's resolvable positions. -/
theorem centroid_nodes_foldl (npos : Nat → Option (ℝ × ℝ)) (nodes : List Nat) :
    ∀ a : ℝ × ℝ × Nat,
      nodes.foldl
        (fun (a : ℝ × ℝ × Nat) nid =>
          match npos nid with
          | some p => (a.1 + p.1, a.2.1 + p.2, a.2.2 + 1)
          | none => a) a =
      (a.1 + ((nodes.filterMap npos).map Prod.fst).sum,
       a.2.1 + ((nodes.filterMap npos).map Prod.snd).sum,
       a.2.2 + (nodes.filterMap npos).length) := by
  induction nodes with
  | nil => intro a; simp
  | cons nid rest ih =>
    intro a
    cases hn : npos nid with
    | none =>
      simp only [List.foldl_cons, hn]
      rw [ih a]
      simp [List.filterMap_cons, hn]
    | some p =>
      simp only [List.foldl_cons, hn]
      rw [ih ((a.1 + p.1, a.2.1 + p.2, a.2.2 + 1) : ℝ × ℝ × Nat)]
      simp only [List.filterMap_cons, hn, List.map_cons, List.sum_cons,
        List.length_cons]
      refine congrArg₂ Prod.mk (by ring) (congrArg₂ Prod.mk (by ring) (by omega))

/-- The outer centroid fold accumulates the sums and the count of all
resolvable position occurrences of the group. -/
theorem centroid_ways_foldl (npos : Nat → Option (ℝ × ℝ)) (ways : List Element) :
    ∀ a : ℝ × ℝ × Nat,
      ways.foldl
        (fun (a : ℝ × ℝ × Nat) w =>
          w.nodes.foldl
            (fun (a : ℝ × ℝ × Nat) nid =>
              match npos nid with
              | some p => (a.1 + p.1, a.2.1 + p.2, a.2.2 + 1)
              | none => a) a) a =
      (a.1 + ((resolvedPositions npos ways).map Prod.fst).sum,
       a.2.1 + ((resolvedPositions npos ways).map Prod.snd).sum,
       a.2.2 + (resolvedPositions npos ways).length) := by
  induction ways with
  | nil => intro a; simp [resolvedPositions]
  | cons w rest ih =>
    intro a
    simp only [List.foldl_cons]
    rw [centroid_nodes_foldl npos w.nodes a, ih]
    have hres : resolvedPositions npos (w :: rest) =
        w.nodes.filterMap npos ++ resolvedPositions npos rest := by
      unfold resolvedPositions
      rw [List.flatMap_cons, List.filterMap_append]
    rw [hres]
    simp only [List.map_append, List.sum_append, List.length_append]
    refine congrArg₂ Prod.mk (by ring) (congrArg₂ Prod.mk (by ring) (by omega))

/-- The great-circle distance from a point to itself is 0. -/
theorem haversine_self (lat lon : ℝ) : haversineMeters lat lon lat lon = 0 := by
  simp only [haversineMeters, toRad, atan2]
  rw [sub_self, sub_self]
  norm_num [Real.sin_zero, Real.arctan_zero]

/-- Numeric bounds for `latOffset1000`: it lies strictly between the
fine pass's 0.001° envelope padding and the coarse pass's 0.05° axis
threshold. -/
theorem latOffset1000_bounds : 0.001 < latOffset1000 ∧ latOffset1000 < 0.05 := by
  unfold latOffset1000
  have hπ := Real.pi_pos
  have h1 := Real.pi_gt_three
  have h2 := Real.pi_lt_d2
  constructor
  · rw [lt_div_iff₀ (by positivity)]
    nlinarith
  · rw [div_lt_iff₀ (by positivity)]
    nlinarith

/-- A centroid at latitude `latOffset1000` is at haversine distance
exactly 1000 m from the point at latitude 0 on the same meridian. -/
theorem haversine_latOffset1000 (lon : ℝ) :
    haversineMeters latOffset1000 lon 0 lon = 1000 := by
  have hπ := Real.pi_pos
  have hπ3 := Real.pi_gt_three
  have hsmall : (1 : ℝ) / 12742 < Real.pi / 2 := by nlinarith
  have hsin_nonneg : 0 ≤ Real.sin (1 / 12742) :=
    Real.sin_nonneg_of_nonneg_of_le_pi (by norm_num) (by nlinarith)
  have hcos_pos : 0 < Real.cos (1 / 12742) :=
    Real.cos_pos_of_mem_Ioo ⟨by nlinarith, hsmall⟩
  have hdlat : (0 - 180 / (6371 * Real.pi)) * Real.pi / 180 / 2 =
      -(1 / 12742) := by
    field_simp
    ring
  simp only [haversineMeters, toRad, atan2, latOffset1000]
  rw [sub_self]
  have hA : Real.sin ((0 - 180 / (6371 * Real.pi)) * Real.pi / 180 / 2) ^ 2 +
      Real.cos (180 / (6371 * Real.pi) * Real.pi / 180) *
        Real.cos (0 * Real.pi / 180) *
        Real.sin (0 * Real.pi / 180 / 2) ^ 2 =
      Real.sin (1 / 12742) ^ 2 := by
    rw [hdlat, Real.sin_neg]
    norm_num [Real.sin_zero]
  simp only [hA]
  have hone : (1 : ℝ) - Real.sin (1 / 12742) ^ 2 =
      Real.cos (1 / 12742) ^ 2 := by
    have h := Real.sin_sq_add_cos_sq (1 / 12742)
    linarith
  rw [hone, Real.sqrt_sq hsin_nonneg, Real.sqrt_sq hcos_pos.le,
    if_pos hcos_pos, ← Real.tan_eq_sin_div_cos,
    Real.arctan_tan (by nlinarith) hsmall]
  norm_num

/-- The planar distance from a segment's midpoint to the segment is 0. -/
theorem distToSegment_midpoint (ax ay bx bY : ℝ) :
    distToSegment ((ax + bx) / 2) ((ay + bY) / 2) ax ay bx bY = 0 := by
  simp only [distToSegment, hypot]
  by_cases h : (bx - ax) * (bx - ax) + (bY - ay) * (bY - ay) = 0
  · rw [if_pos h]
    have hdx : bx - ax = 0 := by nlinarith
    have hdy : bY - ay = 0 := by nlinarith
    have e1 : (ax + bx) / 2 - ax = 0 := by linarith
    have e2 : (ay + bY) / 2 - ay = 0 := by linarith
    rw [e1, e2]
    norm_num
  · rw [if_neg h]
    have h2 : max 0 (min 1 ((((ax + bx) / 2 - ax) * (bx - ax) +
        ((ay + bY) / 2 - ay) * (bY - ay)) /
        ((bx - ax) * (bx - ax) + (bY - ay) * (bY - ay)))) = 1 / 2 := by
      have ht : ((ax + bx) / 2 - ax) * (bx - ax) +
          ((ay + bY) / 2 - ay) * (bY - ay) =
          ((bx - ax) * (bx - ax) + (bY - ay) * (bY - ay)) / 2 := by ring
      have hv : ((bx - ax) * (bx - ax) + (bY - ay) * (bY - ay)) / 2 /
          ((bx - ax) * (bx - ax) + (bY - ay) * (bY - ay)) = 1 / 2 := by
        rw [div_div]
        rw [div_eq_iff (by intro hc; exact h (by linarith))]
        ring
      rw [ht, hv]
      norm_num
    rw [h2]
    have e1 : (ax + bx) / 2 - (ax + 1 / 2 * (bx - ax)) = 0 := by ring
    have e2 : (ay + bY) / 2 - (ay + 1 / 2 * (bY - ay)) = 0 := by ring
    rw [e1, e2]
    norm_num

/-- The fine pass's envelope never rejects a segment's own midpoint. -/
theorem fineSkip_midpoint (route : List Point) (i : Nat) :
    fineSkip (((pointAt route i).2 + (pointAt route (i + 1)).2) / 2)
      (((pointAt route i).1 + (pointAt route (i + 1)).1) / 2) route i =
      false := by
  have hmin : ∀ a b : ℝ, min a b ≤ (a + b) / 2 := by
    intro a b
    rcases le_total a b with h | h
    · rw [min_eq_left h]; linarith
    · rw [min_eq_right h]; linarith
  have hmax : ∀ a b : ℝ, (a + b) / 2 ≤ max a b := by
    intro a b
    rcases le_total a b with h | h
    · rw [max_eq_right h]; linarith
    · rw [max_eq_left h]; linarith
  simp only [fineSkip, Bool.or_eq_false_iff, decide_eq_false_iff_not, not_lt]
  refine ⟨⟨⟨?_, ?_⟩, ?_⟩, ?_⟩
  · have := hmin (pointAt route i).2 (pointAt route (i + 1)).2
    linarith
  · have := hmax (pointAt route i).2 (pointAt route (i + 1)).2
    linarith
  · have := hmin (pointAt route i).1 (pointAt route (i + 1)).1
    linarith
  · have := hmax (pointAt route i).1 (pointAt route (i + 1)).1
    linarith

/-- The fine pass's approximate distance at a segment's own midpoint
is 0. -/
theorem fineApprox_midpoint (route : List Point) (i : Nat) :
    fineApprox (((pointAt route i).2 + (pointAt route (i + 1)).2) / 2)
      (((pointAt route i).1 + (pointAt route (i + 1)).1) / 2) route i = 0 := by
  simp only [fineApprox]
  rw [distToSegment_midpoint]
  ring

/-- If some segment index at or after `i` passes the envelope test and
has approximate distance below the threshold, the fine loop from `i`
accepts. -/
theorem fineLoop_true_of (clat clon : ℝ) (route : List Point) (maxDist : ℝ)
    (i0 : Nat) (hi0 : i0 < route.length - 1)
    (hskip : fineSkip clat clon route i0 = false)
    (hlt : fineApprox clat clon route i0 < maxDist) :
    ∀ (n i : Nat), i0 - i ≤ n → i ≤ i0 →
      fineLoop clat clon route maxDist i = true := by
  intro n
  induction n with
  | zero =>
    intro i hn hi
    have : i = i0 := by omega
    subst this
    rw [fineLoop, if_pos hi0, hskip]
    simp [hlt]
  | succ n ih =>
    intro i hn hi
    by_cases he : i = i0
    · subst he
      rw [fineLoop, if_pos hi0, hskip]
      simp [hlt]
    · have hlt' : i < i0 := by omega
      rw [fineLoop, if_pos (by omega)]
      cases hs : fineSkip clat clon route i with
      | true => simpa using ih (i + 1) (by omega) (by omega)
      | false =>
        cases hd : decide (fineApprox clat clon route i < maxDist) with
        | true => simp
        | false => simpa using ih (i + 1) (by omega) (by omega)

/-- If every sampled coarse distance is at least the threshold, the
coarse loop rejects (the running minimum stays at or above the
threshold). -/
theorem coarseLoop_false_of (clat clon : ℝ) (route : List Point)
    (maxDist : ℝ) (step : Nat) (hs : 0 < step)
    (h : ∀ i, i < route.length - 1 →
      maxDist ≤ coarseMidDist clat clon route step i) :
    ∀ (n i : Nat) (m : Option ℝ), route.length - 1 - i ≤ n →
      (∀ v, m = some v → maxDist ≤ v) →
      coarseLoop clat clon route maxDist step hs i m = false := by
  intro n
  induction n with
  | zero =>
    intro i m hn hm
    rw [coarseLoop, if_neg (by omega)]
  | succ n ih =>
    intro i m hn hm
    by_cases hi : i < route.length - 1
    · rw [coarseLoop, if_pos hi]
      cases hsk : coarseSkip clat clon route step i with
      | true =>
        simpa using ih (i + step) m (by omega) hm
      | false =>
        have hmv : ∀ v, minFold m (coarseMidDist clat clon route step i) =
            some v → maxDist ≤ v := by
          intro v hv
          simp only [minFold] at hv
          cases m with
          | none =>
            simp only [Option.some.injEq] at hv
            subst hv
            exact h i hi
          | some w =>
            simp only [Option.some.injEq] at hv
            subst hv
            by_cases hlt : coarseMidDist clat clon route step i < w
            · simpa [hlt] using h i hi
            · simpa [hlt] using hm w rfl
        have hnlt : minLt (minFold m (coarseMidDist clat clon route step i))
            maxDist = false := by
          simp only [minLt, minFold]
          rw [decide_eq_false_iff_not, not_lt]
          exact hmv _ (by simp [minFold])
        simp only [hnlt]
        simpa using ih (i + step) _ (by omega) hmv
    · rw [coarseLoop, if_neg hi]

/-- If every segment's approximate fine distance is at least the
threshold, the fine loop rejects. -/
theorem fineLoop_false_of (clat clon : ℝ) (route : List Point)
    (maxDist : ℝ)
    (h : ∀ i, i < route.length - 1 →
      maxDist ≤ fineApprox clat clon route i) :
    ∀ (n i : Nat), route.length - 1 - i ≤ n →
      fineLoop clat clon route maxDist i = false := by
  intro n
  induction n with
  | zero =>
    intro i hn
    rw [fineLoop, if_neg (by omega)]
  | succ n ih =>
    intro i hn
    by_cases hi : i < route.length - 1
    · rw [fineLoop, if_pos hi]
      cases hsk : fineSkip clat clon route i with
      | true => simpa using ih (i + 1) (by omega)
      | false =>
        have hd : decide (fineApprox clat clon route i < maxDist) = false := by
          rw [decide_eq_false_iff_not, not_lt]
          exact h i hi
        simp only [hd]
        simpa using ih (i + 1) (by omega)
    · rw [fineLoop, if_neg hi]

/-- The single coarse-pass distance for the 1000 m-offset centroid on
the two-point route along the equator is exactly 1000 m. -/
theorem coarseMidDist_rej :
    coarseMidDist latOffset1000 0.005 [(0, 0), (0.01, 0)] 1 0 = 1000 := by
  simp only [coarseMidDist, pointAt, List.length_cons, List.length_nil]
  norm_num [List.getD]
  exact haversine_latOffset1000 _

/-- Every sampled coarse distance on the rejection route is ≥ 50 m. -/
theorem coarse_rej_bound :
    ∀ j, j < ([((0 : ℝ), (0 : ℝ)), ((0.01 : ℝ), (0 : ℝ))] : List Point).length - 1 →
      (50 : ℝ) ≤ coarseMidDist latOffset1000 0.005 [(0, 0), (0.01, 0)]
        (max 1 (([((0 : ℝ), (0 : ℝ)), ((0.01 : ℝ), (0 : ℝ))] : List Point).length / 500)) j := by
  intro j hj
  have hj0 : j = 0 := by
    simp only [List.length_cons, List.length_nil] at hj
    omega
  subst hj0
  have hstep : (max 1 (([((0 : ℝ), (0 : ℝ)), ((0.01 : ℝ), (0 : ℝ))] : List Point).length / 500)) = 1 := rfl
  rw [hstep, coarseMidDist_rej]
  norm_num

/-- The fine pass's planar distance from the 1000 m-offset centroid to
the equatorial segment is the full latitude offset. -/
theorem distToSegment_rej :
    distToSegment (1 / 200) latOffset1000 0 0 (1 / 100) 0 = latOffset1000 := by
  have hlo0 : 0 < latOffset1000 := by
    unfold latOffset1000
    positivity
  simp only [distToSegment, hypot]
  rw [if_neg (by norm_num)]
  have ht : max 0 (min 1 (((((1 : ℝ) / 200) - 0) * (1 / 100 - 0) +
      (latOffset1000 - 0) * (0 - 0)) /
      ((1 / 100 - 0) * (1 / 100 - 0) + ((0 : ℝ) - 0) * (0 - 0)))) = 1 / 2 := by
    norm_num
  rw [ht]
  have e1 : ((1 : ℝ) / 200) - (0 + 1 / 2 * (1 / 100 - 0)) = 0 := by norm_num
  have e2 : latOffset1000 - (0 + 1 / 2 * ((0 : ℝ) - 0)) = latOffset1000 := by
    ring
  rw [e1, e2]
  have e3 : (0 : ℝ) * 0 + latOffset1000 * latOffset1000 = latOffset1000 ^ 2 := by
    ring
  rw [e3, Real.sqrt_sq hlo0.le]

/-- Every fine-pass approximate distance on the rejection route is
≥ 50 m. -/
theorem fine_rej_bound :
    ∀ j, j < ([((0 : ℝ), (0 : ℝ)), ((0.01 : ℝ), (0 : ℝ))] : List Point).length - 1 →
      (50 : ℝ) ≤ fineApprox latOffset1000 0.005 [(0, 0), (0.01, 0)] j := by
  have hπ := Real.pi_pos
  have hπ3 := Real.pi_gt_three
  intro j hj
  have hj0 : j = 0 := by
    simp only [List.length_cons, List.length_nil] at hj
    omega
  subst hj0
  simp only [fineApprox, pointAt]
  norm_num [List.getD]
  rw [distToSegment_rej]
  have harg : latOffset1000 * Real.pi / 180 = 1 / 6371 := by
    unfold latOffset1000
    field_simp
    ring
  have hcos : (1 : ℝ) / 2 ≤ Real.cos (latOffset1000 * Real.pi / 180) := by
    rw [harg]
    have h13 : (1 : ℝ) / 6371 ≤ Real.pi / 3 := by nlinarith
    have hmono := Real.cos_le_cos_of_nonneg_of_le_pi
      (by norm_num : (0 : ℝ) ≤ 1 / 6371) (by linarith : Real.pi / 3 ≤ Real.pi)
      h13
    rw [Real.cos_pi_div_three] at hmono
    linarith
  have hlo := latOffset1000_bounds.1
  nlinarith [hlo, hcos]

/- ===============================================================
   Claim theorems
   =============================================================== -/

/-- C1: for every route geometry (length ≥ 2) and every combination of
upstream query failures, `countRoundabouts` is a total function into
`ℕ` — it never throws and its result is a non-negative integer — and
when every bounding-box query fails, batch and per-box retry alike
(the oracle answers `none` on every box list), the result is 0. -/
theorem claim_C1 (geometry : List Point)
    (q : List Bbox → Option (List Element))
    (_h2 : 2 ≤ geometry.length) (hfail : ∀ bs, q bs = none) :
    countRoundabouts geometry q = 0 ∧
      ∀ q' : List Bbox → Option (List Element),
        0 ≤ countRoundabouts geometry q' := by
  constructor
  · show countGroups geometry
      (nodePositions (dedupElements
        (gatherElements q (computeSegmentBboxes geometry 12))))
      (groupsOf (dedupElements
        (gatherElements q (computeSegmentBboxes geometry 12)))) = 0
    rw [gatherElements_none q hfail]
    rfl
  · intro q'
    exact Nat.zero_le _

/-- Witness for C1 at a concrete two-point polyline with the
always-failing oracle. -/
theorem claim_C1_witness :
    countRoundabouts [(0, 0), (1, 1)] (fun _ => none) = 0 ∧
      ∀ q' : List Bbox → Option (List Element),
        0 ≤ countRoundabouts [(0, 0), (1, 1)] q' :=
  claim_C1 [(0, 0), (1, 1)] (fun _ => none) (by simp) (fun _ => rfl)

/-- C2 (refuting evaluation): `wB` and `wC` share node 2 — a chain of
length one — yet the grouping pass of `deduplicateRoundabouts` leaves
them in different groups (`wC` is merged into `wA`'s group through
node 1, and `wB`'s group 1 is never merged), contradicting the code's
own comment «ways sharing any node belong to the same roundabout» and
the claimed transitive node-sharing partition. -/
theorem claim_C2 :
    sharesNode wB wC = true ∧
    wayGroupOf [wA, wB, wC] wB.id = some 1 ∧
    wayGroupOf [wA, wB, wC] wC.id = some 0 := by
  decide

/-- C3 (refuting evaluation): `[wC, wA, wB]` is a permutation of
`[wA, wB, wC]`, yet the grouping separates `wB` from `wC` on the first
order and unites them on the second, so the partition is not invariant
under input reordering. -/
theorem claim_C3 :
    List.Perm [wA, wB, wC] [wC, wA, wB] ∧
    wayGroupOf [wA, wB, wC] wB.id ≠ wayGroupOf [wA, wB, wC] wC.id ∧
    wayGroupOf [wC, wA, wB] wB.id = wayGroupOf [wC, wA, wB] wC.id := by
  refine ⟨?_, by decide, by decide⟩
  show ([wA, wB] ++ [wC]).Perm ([wC] ++ [wA, wB])
  exact List.perm_append_comm

/-- C4: for every polyline and per-box contribution function, the count
obtained when every combined batch query fails but every individual
per-box retry succeeds equals the count obtained when the combined
batch query succeeds directly. -/
theorem claim_C4 (geometry : List Point) (contrib : Bbox → List Element) :
    countRoundabouts geometry (retryOracle contrib) =
      countRoundabouts geometry (okOracle contrib) := by
  show countGroups geometry
      (nodePositions (dedupElements (gatherElements (retryOracle contrib)
        (computeSegmentBboxes geometry 12))))
      (groupsOf (dedupElements (gatherElements (retryOracle contrib)
        (computeSegmentBboxes geometry 12)))) =
    countGroups geometry
      (nodePositions (dedupElements (gatherElements (okOracle contrib)
        (computeSegmentBboxes geometry 12))))
      (groupsOf (dedupElements (gatherElements (okOracle contrib)
        (computeSegmentBboxes geometry 12))))
  rw [gatherElements_retry_eq_ok]

set_option maxRecDepth 4000 in
/-- C5 counterexample: for the closed way `wD` (node list [1, 2, 1])
the proximity stage's centroid averages *per occurrence* — node 1
contributes twice — giving (1, 1), while the claimed mean over the
distinct resolvable node ids {1, 2} is (3/2, 3/2). -/
theorem claim_C5_counterexample :
    groupCentroid nposEx [wD] = some (1, 1) ∧
    specCentroidDistinct nposEx [wD] = some (3 / 2, 3 / 2) ∧
    (((1 : ℝ), (1 : ℝ)) : ℝ × ℝ) ≠ ((3 / 2 : ℝ), (3 / 2 : ℝ)) := by
  refine ⟨?_, ?_, ?_⟩
  · simp only [groupCentroid, wD, List.foldl_cons, List.foldl_nil]
    norm_num [nposEx]
  · have h1 : nposEx 1 = some ((0 : ℝ), (0 : ℝ)) := by norm_num [nposEx]
    have h2 : nposEx 2 = some ((3 : ℝ), (3 : ℝ)) := by norm_num [nposEx]
    simp only [specCentroidDistinct, wD, List.flatMap_cons, List.flatMap_nil,
      List.foldl_cons, List.foldl_nil]
    norm_num [List.filterMap_cons, h1, h2]
  · simp only [ne_eq, Prod.mk.injEq]
    norm_num

/-- C5 as amended: the centroid used by the proximity stage is the
arithmetic mean latitude/longitude over the resolvable node-position
*occurrences* of the group (one contribution per occurrence of a node
id in the ways' node lists, not per distinct node id), and a group with
zero resolvable occurrences is discarded: its centroid is undefined and
the group-counting fold skips it without error. -/
theorem claim_C5 (npos : Nat → Option (ℝ × ℝ)) (ways : List Element)
    (coords : List Point) (gs1 gs2 : List (List Element)) :
    groupCentroid npos ways =
      (if resolvedPositions npos ways = [] then none
       else some (((resolvedPositions npos ways).map Prod.fst).sum /
                    ((resolvedPositions npos ways).length : ℝ),
                  ((resolvedPositions npos ways).map Prod.snd).sum /
                    ((resolvedPositions npos ways).length : ℝ))) ∧
    (groupCentroid npos ways = none →
      countGroups coords npos (gs1 ++ ways :: gs2) =
        countGroups coords npos (gs1 ++ gs2)) := by
  constructor
  · simp only [groupCentroid]
    rw [centroid_ways_foldl npos ways ((0, 0, 0) : ℝ × ℝ × Nat)]
    simp only [zero_add]
    by_cases hres : resolvedPositions npos ways = []
    · simp [hres]
    · have hL : (resolvedPositions npos ways).length ≠ 0 := by
        simpa [List.length_eq_zero] using hres
      rw [if_neg hL, if_neg hres]
  · intro h
    unfold countGroups
    rw [List.foldl_append, List.foldl_append, List.foldl_cons, h]

/-- Witness for C5 at the concrete way `wD` with the empty position
table: the centroid is undefined and the group is skipped. -/
theorem claim_C5_witness :
    (groupCentroid nposNone [wD] =
      (if resolvedPositions nposNone [wD] = [] then none
       else some (((resolvedPositions nposNone [wD]).map Prod.fst).sum /
                    ((resolvedPositions nposNone [wD]).length : ℝ),
                  ((resolvedPositions nposNone [wD]).map Prod.snd).sum /
                    ((resolvedPositions nposNone [wD]).length : ℝ)))) ∧
    countGroups [] nposNone ([] ++ [wD] :: []) =
      countGroups [] nposNone ([] ++ []) :=
  ⟨(claim_C5 nposNone [wD] [] [] []).1,
   (claim_C5 nposNone [wD] [] [] []).2 rfl⟩

/-- C6: for every polyline of length ≥ 2 and maximum segment count
M ≥ 1, `computeSegmentBboxes` produces at most M bounding boxes; the
underlying chunks overlap by one point (chunk k+1 starts at the last
point of chunk k) and concatenating them with the overlap points
removed reconstructs the original point sequence exactly. -/
theorem claim_C6 (coords : List Point) (M : Nat)
    (_h2 : 2 ≤ coords.length) (hM : 1 ≤ M) :
    (computeSegmentBboxes coords M).length ≤ M ∧
    (∀ k, k + 1 < (segmentChunks coords M).length →
      ((segmentChunks coords M).getD (k + 1) []).head? =
        ((segmentChunks coords M).getD k []).getLast?) ∧
    dropOverlapConcat (segmentChunks coords M) = coords := by
  refine ⟨?_, segmentChunks_overlap coords M, ?_⟩
  · unfold computeSegmentBboxes
    rw [List.length_map]
    exact segmentChunks_length_le coords M hM
  · unfold segmentChunks
    exact chunksFrom_reconstruct coords _ _

/-- Witness for C6 at a concrete three-point polyline with M = 2. -/
theorem claim_C6_witness :
    (computeSegmentBboxes [(0, 0), (1, 1), (2, 2)] 2).length ≤ 2 ∧
    (∀ k, k + 1 < (segmentChunks [(0, 0), (1, 1), (2, 2)] 2).length →
      ((segmentChunks [(0, 0), (1, 1), (2, 2)] 2).getD (k + 1) []).head? =
        ((segmentChunks [(0, 0), (1, 1), (2, 2)] 2).getD k []).getLast?) ∧
    dropOverlapConcat (segmentChunks [(0, 0), (1, 1), (2, 2)] 2) =
      [(0, 0), (1, 1), (2, 2)] :=
  claim_C6 [(0, 0), (1, 1), (2, 2)] 2 (by simp) (by norm_num)

/-- C7 counterexample: the element `el0` has the falsy id 0, so the
dedup step drops it entirely — the first occurrence of the identity
("node", 0) is *not* kept, while the spec's described mapping would
keep it. -/
theorem claim_C7_counterexample :
    dedupElements [el0] = [] ∧
    specDedupFirstOcc [el0] = [el0] ∧
    el0 ∉ dedupElements [el0] := by
  refine ⟨rfl, rfl, ?_⟩

  intro hmem
  rw [show dedupElements [el0] = [] from rfl] at hmem
  exact List.not_mem_nil _ hmem

/-- C7 as amended: the dedup step keeps the first occurrence of each
(type, id) identity *among the elements with a nonzero id* (elements
with the falsy id 0 are dropped entirely), and the output contains
each identity at most once. -/
theorem claim_C7 (els : List Element) :
    dedupElements els =
      specDedupFirstOcc (els.filter (fun e => e.id ≠ 0)) ∧
    ((dedupElements els).map elemKey).Nodup := by
  have hfold : els.foldl dedupUpd [] =
      (els.filter (fun e => e.id ≠ 0)).foldl specDedupUpd [] :=
    dedup_foldl_filter els []
  constructor
  · unfold dedupElements specDedupFirstOcc
    rw [hfold]
  · unfold dedupElements
    rw [hfold]
    obtain ⟨hnodup, hkeys⟩ :=
      specDedupUpd_fold_inv (els.filter (fun e => e.id ≠ 0)) []
        ⟨List.nodup_nil, by intro p hp; exact absurd hp (List.not_mem_nil p)⟩
    rw [List.map_map]
    have hmap : (List.foldl specDedupUpd []
          (els.filter (fun e => e.id ≠ 0))).map (elemKey ∘ Prod.snd) =
        (List.foldl specDedupUpd []
          (els.filter (fun e => e.id ≠ 0))).map Prod.fst := by
      apply List.map_congr_left
      intro p hp
      exact (hkeys p hp).symm
    rw [hmap]
    exact hnodup

/-- C8: with the default 50 m threshold, `isNearRoute` accepts a
centroid lying exactly on the midpoint of any route segment, and — on
the concrete two-point equatorial route — rejects a centroid lying
exactly 1000 m great-circle-perpendicular from the nearest route point
(the centroid at latitude `latOffset1000`, longitude 0.005 is 1000 m
from its nearest route point (lat 0, lon 0.005), as the middle
conjunct records). -/
theorem claim_C8 :
    (∀ (route : List Point) (i : Nat), i < route.length - 1 →
      isNearRoute (((pointAt route i).2 + (pointAt route (i + 1)).2) / 2)
        (((pointAt route i).1 + (pointAt route (i + 1)).1) / 2)
        route 50 = true) ∧
    haversineMeters latOffset1000 0.005 0 0.005 = 1000 ∧
    isNearRoute latOffset1000 0.005 [(0, 0), (0.01, 0)] 50 = false := by
  refine ⟨?_, haversine_latOffset1000 0.005, ?_⟩
  · intro route i hi
    unfold isNearRoute
    cases hc : coarseLoop
        (((pointAt route i).2 + (pointAt route (i + 1)).2) / 2)
        (((pointAt route i).1 + (pointAt route (i + 1)).1) / 2)
        route 50 (max 1 (route.length / 500)) (le_max_left 1 _) 0 none with
    | true => rfl
    | false =>
      have hf := fineLoop_true_of _ _ route 50 i hi
        (fineSkip_midpoint route i)
        (by rw [fineApprox_midpoint]; norm_num) i 0 (by omega) (by omega)
      rw [hf]
      rfl
  · unfold isNearRoute
    have hc := coarseLoop_false_of latOffset1000 0.005 [(0, 0), (0.01, 0)]
      50 _ (le_max_left 1 _) coarse_rej_bound 1 0 none (by simp)
      (by intro v hv; simp at hv)
    have hf := fineLoop_false_of latOffset1000 0.005 [(0, 0), (0.01, 0)]
      50 fine_rej_bound 1 0 (by simp)
    rw [hc, hf]
    rfl

/-- Witness for C8's universally quantified midpoint-acceptance
conjunct, at segment 0 of the concrete route [(0,0), (2,2)] (centroid
(1, 1)). -/
theorem claim_C8_witness :
    isNearRoute
      (((pointAt [(0, 0), (2, 2)] 0).2 + (pointAt [(0, 0), (2, 2)] 1).2) / 2)
      (((pointAt [(0, 0), (2, 2)] 0).1 + (pointAt [(0, 0), (2, 2)] 1).1) / 2)
      [(0, 0), (2, 2)] 50 = true :=
  claim_C8.1 [(0, 0), (2, 2)] 0 (by
    show 0 < ([(0, 0), (2, 2)] : List Point).length - 1
    rw [List.length_cons, List.length_cons, List.length_nil]
    omega)

/-- C10: the proximity threshold is exclusive at the boundary in both
passes: whenever every sampled coarse great-circle distance and every
fine approximate distance is at least the threshold — in particular
when some of them equal it exactly — `isNearRoute` rejects, because
both passes compare with strict less-than. -/
theorem claim_C10 (clat clon maxDist : ℝ) (route : List Point)
    (hcoarse : ∀ i, i < route.length - 1 →
      maxDist ≤ coarseMidDist clat clon route (max 1 (route.length / 500)) i)
    (hfine : ∀ i, i < route.length - 1 →
      maxDist ≤ fineApprox clat clon route i) :
    isNearRoute clat clon route maxDist = false := by
  unfold isNearRoute
  rw [coarseLoop_false_of clat clon route maxDist _ (le_max_left 1 _) hcoarse
    (route.length - 1) 0 none (by omega) (by intro v hv; simp at hv)]
  rw [fineLoop_false_of clat clon route maxDist hfine
    (route.length - 1) 0 (by omega)]
  rfl

/-- Witness for C10 at the concrete rejection configuration: all
sampled distances are ≥ 50 (the single coarse distance is exactly
1000), and the centroid is not accepted. -/
theorem claim_C10_witness :
    isNearRoute latOffset1000 0.005 [(0, 0), (0.01, 0)] 50 = false :=
  claim_C10 latOffset1000 0.005 50 [(0, 0), (0.01, 0)]
    coarse_rej_bound fine_rej_bound

set_option maxRecDepth 8000 in
/-- C9 counterexample: on a 504 response with body "Gateway Timeout",
the thrown error's message is "Overpass API HTTP 504" — it carries the
status, but not the truncated response body. -/
theorem claim_C9_counterexample :
    overpassResponse res0 parse0 =
      Except.error (overpassHttpErrorMsg res0.status) ∧
    ¬ carries (res0.body.take 200) (overpassHttpErrorMsg res0.status) := by
  exact ⟨rfl, by decide⟩

/-- C9 as amended: on every non-success response, `queryOverpassBboxes`
fails with an error carrying the status; the truncated response body
(first 200 characters) is carried only by the diagnostic log line, not
by the error. -/
theorem claim_C9 (res : HttpResponse)
    (parse : String → Option (List Element)) (hres : res.ok = false) :
    overpassResponse res parse =
      Except.error (overpassHttpErrorMsg res.status) ∧
    carries (toString res.status) (overpassHttpErrorMsg res.status) ∧
    carries (res.body.take 200) (overpassErrorLog res) := by
  refine ⟨?_, ?_, ?_⟩
  · unfold overpassResponse
    rw [hres]
    rfl
  · unfold carries overpassHttpErrorMsg
    have hdata : (String.append "Overpass API HTTP "
        (toString res.status)).toList =
        "Overpass API HTTP ".toList ++ (toString res.status).toList :=
      String.data_append _ _
    rw [hdata]
    exact (List.suffix_append _ _).isInfix
  · unfold carries overpassErrorLog
    have hd1 : ∀ s t : String, (String.append s t).toList =
        s.toList ++ t.toList := fun s t => String.data_append s t
    rw [hd1, hd1, hd1]
    refine List.IsSuffix.isInfix ?_
    exact (List.suffix_append _ _).trans
      ((List.suffix_append _ _).trans (List.suffix_append _ _))

/-- Witness for C9 as amended, at the concrete 504 response. -/
theorem claim_C9_witness :
    overpassResponse res0 parse0 =
      Except.error (overpassHttpErrorMsg res0.status) ∧
    carries (toString res0.status) (overpassHttpErrorMsg res0.status) ∧
    carries (res0.body.take 200) (overpassErrorLog res0) :=
  claim_C9 res0 parse0 rfl

end GC
